import Mathlib

/-!
Verification of the doit CLI driver (`doit/doit_cmd.py`).

Strings are modelled as `List Char` (`Str`).  Python argv tokens, option
names and values are all `Str`.  Code translated directly from
`doit_cmd.py` cites the source lines; parts of the doit package that are
only called from `doit_cmd.py` (the `cmdparse` option parser, the
`cmd_base.Command` plumbing) are modelled from the specification and say
so in their doc comments.
-/

namespace Doit

abbrev Str := List Char

/-- Python values that flow through the option machinery: strings,
booleans, ints, lists of strings, and Python's `None`. -/
inductive Val where
  | str (s : Str)
  | boolean (b : Bool)
  | int (n : Int)
  | list (xs : List Str)
  | pynone
deriving DecidableEq

/-- The `type` field of an option dictionary (`str` / `bool` / `int`). -/
inductive OptType where
  | ostr
  | obool
  | oint
deriving DecidableEq

/-- One command-line option descriptor, mirroring the option dictionaries
of `doit_cmd.py` (fields `name`, `short`, `long`, `type`, `default`,
optional `inverse`).  The `help` text field is omitted: no claim refers
to it. -/
structure CmdOption where
  name : Str
  short : Str
  long : Str
  otype : OptType
  default : Val
  inverse : Option Str
deriving DecidableEq

/-- `opt_dodo` (doit_cmd.py lines 105-111). -/
def opt_dodo : CmdOption :=
  ⟨"dodoFile".data, "f".data, "file".data, .ostr, .str "dodo.py".data, none⟩

/-- `opt_cwd` (doit_cmd.py lines 114-121); default is Python `None`. -/
def opt_cwd : CmdOption :=
  ⟨"cwdPath".data, "d".data, "dir".data, .ostr, .pynone, none⟩

/-- `opt_seek_file` (doit_cmd.py lines 124-131). -/
def opt_seek_file : CmdOption :=
  ⟨"seek_file".data, [], "seek-file".data, .obool, .boolean false, none⟩

/-- `opt_depfile` (doit_cmd.py lines 145-151). -/
def opt_depfile : CmdOption :=
  ⟨"dep_file".data, [], "db-file".data, .ostr, .str ".doit.db".data, none⟩

/-- `opt_always` (doit_cmd.py lines 154-161). -/
def opt_always : CmdOption :=
  ⟨"always".data, "a".data, "always-execute".data, .obool, .boolean false, none⟩

/-- `opt_continue` (doit_cmd.py lines 164-172): boolean option with an
inverse long flag `no-continue`. -/
def opt_continue : CmdOption :=
  ⟨"continue".data, "c".data, "continue".data, .obool, .boolean false,
   some "no-continue".data⟩

/- ## Variable extraction (doit_cmd.py lines 517-525) -/

/-- Python `s.split(sep, 1)` for a one-character separator: the part
before the first occurrence and the part after it.  (`doit_cmd.py` only
calls it when the separator occurs in the string.) -/
def splitOnFirst (c : Char) : Str → Str × Str
  | [] => ([], [])
  | x :: xs =>
    if x = c then ([], xs)
    else
      let p := splitOnFirst c xs
      (x :: p.1, p.2)

/-- The test `(arg[0] != '-') and ('=' in arg)` of line 521, defined for
non-empty tokens (on the empty token the Python expression raises
`IndexError` before this test can produce a value; `extract_vars` models
that case separately). -/
def is_var_token : Str → Bool
  | [] => false
  | c :: rest => (c != '-') && ((c :: rest).contains '=')

/-- The variable-extraction loop of `cmd_main` (lines 519-525): each
token whose first character is not `-` and which contains `=` is split
on the first `=` and recorded as a `set_var` pair; every other token is
appended to `args_no_vars`.  Evaluating `arg[0]` on an empty token
raises `IndexError`, modelled as `Except.error ()`. -/
def extract_vars : List Str → Except Unit (List (Str × Str) × List Str)
  | [] => .ok ([], [])
  | arg :: rest =>
    match arg with
    | [] => .error ()
    | _ :: _ =>
      match extract_vars rest with
      | .error e => .error e
      | .ok (vars, kept) =>
        if is_var_token arg then .ok (splitOnFirst '=' arg :: vars, kept)
        else .ok (vars, arg :: kept)

/-- The variable entry a single token contributes: the pair obtained by
splitting on the first `=` when the token is a variable assignment,
nothing otherwise.  Used to state the extraction loop's behaviour. -/
def var_entry (t : Str) : Option (Str × Str) :=
  if is_var_token t then some (splitOnFirst '=' t) else none

/- ## Command-name resolution (doit_cmd.py lines 528-532) -/

/-- Lines 528-532: if `args_no_vars` is empty or its first element is
not a registered command name, the command is `run` and the list is left
unchanged; otherwise the first element is popped as the command name. -/
def resolve_command (names : List Str) (args_no_vars : List Str) :
    Str × List Str :=
  match args_no_vars with
  | [] => ("run".data, [])
  | a :: rest => if a ∈ names then (a, rest) else ("run".data, a :: rest)

/-- Modelled from the spec: the names of the commands in
`DOIT_BUILTIN_CMDS` (line 460).  The `name` attribute lives in
`cmd_base.Command`, which is not part of this file's source; per the
spec a command's identity is its lowercase class name, giving
`help, run, list, clean, forget, ignore, auto`. -/
def builtin_cmd_names : List Str :=
  ["help".data, "run".data, "list".data, "clean".data, "forget".data,
   "ignore".data, "auto".data]

/- ## The dispatcher `cmd_main` (doit_cmd.py lines 491-547) -/

/-- Externally observable actions of `cmd_main`, in order: printing
version/usage, resetting the variable table, one `set_var` call per
extracted variable, invoking the selected command, and the two error
reports written to stderr (the single `ERROR:` line of line 542, and the
full traceback of line 546). -/
inductive Event where
  | printVersion
  | printUsage
  | resetVars
  | setVar (name value : Str)
  | execCmd (cmd : Str) (args : List Str)
  | errLine (line : Str)
  | errTrace
deriving DecidableEq

/-- The four exception classes caught on lines 540-541: `CmdParseError`,
`InvalidDodoFile`, `InvalidCommand`, `InvalidTask`. -/
inductive UserError where
  | cmdParseError
  | invalidDodoFile
  | invalidCommand
  | invalidTask
deriving DecidableEq

/-- Outcome of `sub_cmd[command].parse_execute(...)` (line 537): a
normal integer return, one of the four user-error exceptions, or any
other exception. -/
inductive ExecOutcome where
  | ok (result : Int)
  | userError (k : UserError) (msg : Str)
  | exception (msg : Str)
deriving DecidableEq

/-- The events emitted on the dispatch path before any error handling:
`reset_vars` (line 518), the `set_var` calls, and the command
invocation. -/
def dispatch_events (vars : List (Str × Str)) (cr : Str × List Str) :
    List Event :=
  Event.resetVars :: (vars.map fun p => Event.setVar p.1 p.2)
    ++ [Event.execCmd cr.1 cr.2]

/-- Lines 514-547 of `cmd_main`: extract variables (an `IndexError`
there propagates — it is raised before the `try` of line 536), resolve
the command name, run it, and map the outcome to an exit code: a normal
result is returned as is; one of the four user errors becomes exit code
3 with a single `ERROR: <message>` line; any other exception becomes
exit code 3 with a full traceback. -/
def cmd_main_dispatch (ex : Str → List Str → ExecOutcome)
    (names : List Str) (argv : List Str) :
    Except Unit (Int × List Event) :=
  match extract_vars argv with
  | .error e => .error e
  | .ok (vars, args_no_vars) =>
    let cr := resolve_command names args_no_vars
    match ex cr.1 cr.2 with
    | .ok n => .ok (n, dispatch_events vars cr)
    | .userError _ msg =>
      .ok (3, dispatch_events vars cr
              ++ [Event.errLine ("ERROR: ".data ++ msg)])
    | .exception _ => .ok (3, dispatch_events vars cr ++ [Event.errTrace])

/-- `cmd_main` (lines 491-547).  Lines 504-511: when the first token is
`--version` or `--help` the corresponding text is printed and 0 is
returned immediately; otherwise dispatch proceeds on the full token
list.  The command executor `ex` and the registered names are
parameters (the commands' `parse_execute` lives outside this file). -/
def cmd_main (ex : Str → List Str → ExecOutcome) (names : List Str)
    (argv : List Str) : Except Unit (Int × List Event) :=
  match argv with
  | [] => cmd_main_dispatch ex names []
  | a :: _ =>
    if a = "--version".data then .ok (0, [Event.printVersion])
    else if a = "--help".data then .ok (0, [Event.printUsage])
    else cmd_main_dispatch ex names argv

/- ## ParamSet and option-value resolution -/

/-- One resolved option slot of a ParamSet: the current value and the
presence bit recording whether the option was explicitly set on the
command line (spec §9: explicit-set must be a presence bit, not a
comparison with the default). -/
structure ParamVal where
  value : Val
  explicitSet : Bool
deriving DecidableEq

/-- A ParamSet: association list from option name to its slot. -/
abbrev Params := List (Str × ParamVal)

/-- First-match association-list lookup (Python dict indexing; keys are
unique in every dict this file models). -/
def lookupAssoc {β : Type} : List (Str × β) → Str → Option β
  | [], _ => none
  | q :: rest, key => if q.1 = key then some q.2 else lookupAssoc rest key

/-- The first option descriptor with the given name. -/
def find_spec : List CmdOption → Str → Option CmdOption
  | [], _ => none
  | s :: rest, nm => if s.name = nm then some s else find_spec rest nm

/-- Modelled from the spec: a fresh ParamSet is created per invocation
from the OptionSpec defaults, with no option marked as explicitly set
(spec §3, ParamSet).  The construction itself lives in
`cmdparse.TaskParse`, which is not part of this file's source. -/
def init_params (specs : List CmdOption) : Params :=
  specs.map fun s => (s.name, ⟨s.default, false⟩)

/-- Modelled from the spec: parsing an explicit CLI occurrence of an
option stores its value and sets the presence bit (spec §3/§9).  The
parsing loop lives in `cmdparse`, outside this file's source. -/
def set_cli (p : Params) (nm : Str) (v : Val) : Params :=
  p.map fun q => if q.1 = nm then (q.1, ⟨v, true⟩) else q

/-- Modelled from the spec: all explicit CLI values applied in argv
order (a later occurrence of the same option overwrites an earlier
one). -/
def apply_cli (p : Params) (cli : List (Str × Val)) : Params :=
  cli.foldl (fun acc q => set_cli acc q.1 q.2) p

/-- Modelled from the spec: `params.update_defaults(config)` of
doit_cmd.py line 229 — the method itself lives in `cmdparse`.  Per spec
§4.2 it merges the manifest config's declared option defaults into the
ParamSet only for options not explicitly set on the CLI; the presence
bit is left unchanged. -/
def update_defaults (p : Params) (config : List (Str × Val)) : Params :=
  p.map fun q =>
    if q.2.explicitSet then q
    else
      match lookupAssoc config q.1 with
      | some v => (q.1, ⟨v, q.2.explicitSet⟩)
      | none => q

/-- The last value assigned to `nm` in the CLI assignment list, if
any. -/
def lastAssoc (cli : List (Str × Val)) (nm : Str) : Option Val :=
  match cli with
  | [] => none
  | q :: rest =>
    match lastAssoc rest nm with
    | some v => some v
    | none => if q.1 = nm then some q.2 else none

/- ## `DoitCmdBase.read_dodo` (doit_cmd.py lines 222-231) -/

/-- The value returned by `loader.get_tasks` (line 224): the loaded task
list (task names are opaque here) and the manifest `config` mapping. -/
structure DodoTasks where
  task_list : List Str
  config : List (Str × Val)
deriving DecidableEq

/-- Python `config.get('default_tasks')`: the stored value, or `None`
when the key is absent. -/
def config_get (config : List (Str × Val)) (k : Str) : Val :=
  match lookupAssoc config k with
  | some v => v
  | none => .pynone

/-- The state `read_dodo` leaves behind: `self.task_list`,
`self.config`, the updated `params`, and `self.sel_tasks`. -/
structure ReadDodoResult where
  task_list : List Str
  config : List (Str × Val)
  params : Params
  sel_tasks : Val
deriving DecidableEq

/-- `DoitCmdBase.read_dodo` (lines 222-231), with the external loader's
answer passed in as `dodo`: stores the task list and config, calls
`params.update_defaults(self.config)`, and computes
`self.sel_tasks = args or self.config.get('default_tasks')` — `args`
when non-empty, else the config's `default_tasks` entry (Python `None`
when the config does not declare one). -/
def read_dodo (dodo : DodoTasks) (params : Params) (args : List Str) :
    ReadDodoResult :=
  ⟨dodo.task_list, dodo.config, update_defaults params dodo.config,
   if args = [] then config_get dodo.config "default_tasks".data
   else Val.list args⟩

/- ## `Help.execute` (doit_cmd.py lines 443-453) -/

/-- The observable actions of `Help.execute`: printing one command's
help text, printing the static `HELP_TASK` reference, printing the
general usage text, or calling the task loader (`read_dodo`); the last
is listed so that its absence can be stated. -/
inductive HelpEffect where
  | printCmdHelp (name : Str)
  | printTaskHelp
  | printUsage
  | loaderGetTasks
deriving DecidableEq

/-- `Help.execute` (lines 443-453): with exactly one positional argument
that is a registered command name, print that command's help and return
0; with the single argument `task`, print `HELP_TASK` and return 0; in
every other case fall through to `DoitMain.print_usage()` and return 0.
The registry `params['sub']` is passed as the list of its keys. -/
def help_execute (sub : List Str) (args : List Str) :
    List HelpEffect × Int :=
  match args with
  | [a] =>
    if a ∈ sub then ([.printCmdHelp a], 0)
    else if a = "task".data then ([.printTaskHelp], 0)
    else ([.printUsage], 0)
  | _ => ([.printUsage], 0)

/- ## Boolean options with an inverse flag -/

/-- The argv tokens that match an option's direct flag: `-<short>` (when
a short flag is declared) and `--<long>`.  Modelled from the spec (§4.1
— the flag-matching loop lives in `cmdparse`/getopt, outside this
file's source). -/
def direct_flag_tokens (o : CmdOption) : List Str :=
  (if o.short = [] then [] else [('-' :: o.short)]) ++ [('-' :: '-' :: o.long)]

/-- The argv tokens that match an option's inverse flag:
`--<inverse>` when one is declared.  Modelled from the spec (§4.1). -/
def inverse_flag_tokens (o : CmdOption) : List Str :=
  match o.inverse with
  | some l => [('-' :: '-' :: l)]
  | none => []

/-- Modelled from the spec: left-to-right resolution of a boolean option
with an inverse flag (spec §4.1) — a direct-flag token sets the value to
true, an inverse-flag token sets it to false, any other token leaves it
unchanged; `acc` starts at the option's default.  The scanning loop
lives in `cmdparse`, outside this file's source. -/
def parse_bool_flags (direct inv : List Str) : Bool → List Str → Bool
  | acc, [] => acc
  | acc, t :: rest =>
    parse_bool_flags direct inv
      (if t ∈ direct then true else if t ∈ inv then false else acc) rest

/-- Index (from the head of the list) of the last element satisfying
`P`, if any. -/
def lastIdx (P : Str → Bool) : List Str → Option Nat
  | [] => none
  | a :: xs =>
    match lastIdx P xs with
    | some k => some (k + 1)
    | none => if P a then some 0 else none

/- ## Theorems -/

/-- C3: after variable extraction the dispatcher resolves the command
name as follows: an empty filtered list yields `run` with no token
consumed; a first element that is not a registered command name also
yields `run` with the token left in place as a positional argument (not
a parse error); otherwise the first token is popped as the command
name. -/
theorem resolve_command_spec (names args : List Str) :
    (args = [] → resolve_command names args = ("run".data, [])) ∧
    (∀ a rest, args = a :: rest → a ∉ names →
       resolve_command names args = ("run".data, a :: rest)) ∧
    (∀ a rest, args = a :: rest → a ∈ names →
       resolve_command names args = (a, rest)) := by
  refine ⟨?_, ?_, ?_⟩
  · rintro rfl; rfl
  · rintro a rest rfl h; simp [resolve_command, h]
  · rintro a rest rfl h; simp [resolve_command, h]

/-- Witness for C3: the unrecognized leading token `zzz` falls back to
command `run` and stays in the argument list. -/
theorem resolve_command_spec_witness :
    resolve_command builtin_cmd_names ["zzz".data, "x".data]
      = ("run".data, ["zzz".data, "x".data]) :=
  (resolve_command_spec builtin_cmd_names ["zzz".data, "x".data]).2.1
    "zzz".data ["x".data] rfl (by decide)

/-- C7: a first token of `--version` or `--help` returns exit code 0
immediately after printing version or usage information, for any
trailing tokens; the event trace shows that no variable extraction,
command resolution, or command execution takes place. -/
theorem cmd_main_version_help (ex : Str → List Str → ExecOutcome)
    (names : List Str) (rest : List Str) :
    cmd_main ex names ("--version".data :: rest)
        = .ok (0, [Event.printVersion]) ∧
    cmd_main ex names ("--help".data :: rest)
        = .ok (0, [Event.printUsage]) :=
  ⟨rfl, rfl⟩

/-- C9: on the registry built from `DOIT_BUILTIN_CMDS`, the resolved
command name is always a registered name (so `sub_cmd[command]` cannot
fail), and `run` is always registered. -/
theorem resolved_command_registered (args : List Str) :
    "run".data ∈ builtin_cmd_names ∧
    (resolve_command builtin_cmd_names args).1 ∈ builtin_cmd_names := by
  refine ⟨by decide, ?_⟩
  cases args with
  | nil => decide
  | cons a rest =>
    by_cases h : a ∈ builtin_cmd_names
    · simp [resolve_command, h]
    · simp [resolve_command, h]
      decide

/-- C10: a token whose first character is `=` is treated as a variable
assignment with the empty name: the split on the first `=` records name
`""` mapped to the remainder, and the token is excluded from the
arguments forwarded to command parsing. -/
theorem extract_vars_leading_eq (v : Str) (rest : List Str)
    (vars : List (Str × Str)) (kept : List Str)
    (h : extract_vars rest = .ok (vars, kept)) :
    extract_vars (('=' :: v) :: rest) = .ok ((([], v)) :: vars, kept) := by
  simp [extract_vars, h, is_var_token, splitOnFirst]

/-- Witness for C10: the token `=val` records name `""` and value
`val` and is dropped from the forwarded arguments. -/
theorem extract_vars_leading_eq_witness :
    extract_vars [('=' :: "val".data)]
      = .ok ([(([] : Str), "val".data)], []) :=
  extract_vars_leading_eq "val".data [] [] [] rfl

/-- C8: `read_dodo` computes the effective task selection as the
positional argument list when it is non-empty, and otherwise as the
manifest config's declared default task list. -/
theorem read_dodo_selection (dodo : DodoTasks) (params : Params)
    (args : List Str) :
    (args ≠ [] → (read_dodo dodo params args).sel_tasks = Val.list args) ∧
    (∀ v, args = [] →
       lookupAssoc dodo.config "default_tasks".data = some v →
       (read_dodo dodo params args).sel_tasks = v) := by
  constructor
  · intro h; simp [read_dodo, h]
  · rintro v rfl h; simp [read_dodo, config_get, h]

/-- Witness for C8: with no positional arguments the selection is the
config's declared `default_tasks` list. -/
theorem read_dodo_selection_witness :
    (read_dodo ⟨[], [("default_tasks".data, Val.list ["build".data])]⟩
        [] []).sel_tasks = Val.list ["build".data] :=
  (read_dodo_selection
      ⟨[], [("default_tasks".data, Val.list ["build".data])]⟩ [] []).2
    (Val.list ["build".data]) rfl rfl

/-- C2 (counterexample): the claim fails on an empty argv token.  The
empty token neither starts with `-` nor contains `=`, so per the claim
it should be kept, giving `ok ([], [""])`; instead evaluating `arg[0]`
raises `IndexError`, modelled as `error ()`. -/
theorem extract_vars_empty_token_raises :
    extract_vars [([] : Str)] = .error () ∧
    extract_vars [([] : Str)] ≠ .ok ([], [([] : Str)]) :=
  ⟨rfl, by simp [extract_vars]⟩

/-- C2 (amended): for every scanned token list whose tokens are all
non-empty, each token that does not start with `-` and contains `=` is
recorded as exactly one variable entry, split on the first `=` only, and
excluded from the forwarded arguments; every other token is kept in its
original relative order.  (An empty token instead raises an uncaught
`IndexError`.) -/
theorem extract_vars_characterization (argv : List Str)
    (h : ∀ t ∈ argv, t ≠ ([] : Str)) :
    extract_vars argv
      = .ok (argv.filterMap var_entry,
             argv.filter fun t => !(is_var_token t)) := by
  induction argv with
  | nil => rfl
  | cons a rest ih =>
    have ha : a ≠ [] := h a (by simp)
    have hr : ∀ t ∈ rest, t ≠ ([] : Str) := fun t ht => h t (by simp [ht])
    obtain ⟨c, cs, rfl⟩ : ∃ c cs, a = c :: cs := by
      cases a with
      | nil => exact absurd rfl ha
      | cons c cs => exact ⟨c, cs, rfl⟩
    by_cases hv : is_var_token (c :: cs)
    · simp [extract_vars, ih hr, hv, var_entry]
    · simp [extract_vars, ih hr, hv, var_entry]

/-- Witness for C2: `a=b=c` is split on the first `=` only (name `a`,
value `b=c`) and removed; `-x` and `tok` are kept in order. -/
theorem extract_vars_characterization_witness :
    extract_vars ["a=b=c".data, "-x".data, "tok".data]
      = .ok (["a=b=c".data, "-x".data, "tok".data].filterMap var_entry,
             ["a=b=c".data, "-x".data, "tok".data].filter
               fun t => !(is_var_token t)) :=
  extract_vars_characterization ["a=b=c".data, "-x".data, "tok".data]
    (by decide)

/-- C6: `Help.execute` performs no loader call (`read_dodo`) and always
returns 0; with exactly one positional argument that is a registered
command name it prints that command's help; with the single argument
`task` it prints the static task-manifest reference; with zero, more
than one, or any other single argument it prints general usage. -/
theorem help_execute_spec (args : List Str) :
    (help_execute builtin_cmd_names args).2 = 0 ∧
    HelpEffect.loaderGetTasks ∉ (help_execute builtin_cmd_names args).1 ∧
    (∀ a, args = [a] → a ∈ builtin_cmd_names →
       (help_execute builtin_cmd_names args).1
         = [HelpEffect.printCmdHelp a]) ∧
    (args = ["task".data] →
       (help_execute builtin_cmd_names args).1
         = [HelpEffect.printTaskHelp]) ∧
    (∀ a, args = [a] → a ∉ builtin_cmd_names → a ≠ "task".data →
       (help_execute builtin_cmd_names args).1
         = [HelpEffect.printUsage]) ∧
    (args.length ≠ 1 →
       (help_execute builtin_cmd_names args).1
         = [HelpEffect.printUsage]) := by
  obtain _ | ⟨a, _ | ⟨b, rest⟩⟩ := args
  · refine ⟨rfl, by simp [help_execute], ?_, ?_, ?_, fun _ => rfl⟩
    · intro a h; exact absurd h (by simp)
    · intro h; exact absurd h (by simp)
    · intro a h; exact absurd h (by simp)
  · by_cases h1 : a ∈ builtin_cmd_names
    · have h2 : a ≠ "task".data := by
        rintro rfl; revert h1; decide
      refine ⟨?_, ?_, ?_, ?_, ?_, ?_⟩
      · simp [help_execute, h1]
      · simp [help_execute, h1]
      · rintro x hx h
        obtain rfl : x = a := by simpa using hx.symm
        simp [help_execute, h1]
      · rintro h
        obtain rfl : a = "task".data := by simpa using h
        exact absurd h1 (by decide)
      · rintro x hx h _
        obtain rfl : x = a := by simpa using hx.symm
        exact absurd h1 h
      · intro h; exact absurd rfl h
    · refine ⟨?_, ?_, ?_, ?_, ?_, ?_⟩
      · by_cases h2 : a = "task".data
        · subst h2; decide
        · simp [help_execute, h1, h2]
      · by_cases h2 : a = "task".data
        · subst h2; decide
        · simp [help_execute, h1, h2]
      · rintro x hx h
        obtain rfl : x = a := by simpa using hx.symm
        exact absurd h h1
      · rintro h
        obtain rfl : a = "task".data := by simpa using h
        simp [help_execute, h1]
      · rintro x hx h h2
        obtain rfl : x = a := by simpa using hx.symm
        simp [help_execute, h1, h2]
      · intro h; exact absurd rfl h
  · refine ⟨rfl, by simp [help_execute], ?_, ?_, ?_, fun _ => rfl⟩
    · intro x h; exact absurd h (by simp)
    · intro h; exact absurd h (by simp)
    · intro x h; exact absurd h (by simp)

/-- Witness for C6: `help list` prints the `list` command's help and
returns 0. -/
theorem help_execute_spec_witness :
    (help_execute builtin_cmd_names ["list".data]).2 = 0 ∧
    (help_execute builtin_cmd_names ["list".data]).1
      = [HelpEffect.printCmdHelp "list".data] :=
  ⟨(help_execute_spec ["list".data]).1,
   (help_execute_spec ["list".data]).2.2.1 "list".data rfl (by decide)⟩

/-- C4 (counterexample): an argv consisting of the single empty token
makes `cmd_main` propagate the `IndexError` raised by `arg[0]` during
variable extraction — it happens before the `try` of line 536, so no
exit code 3 is produced and the exception escapes `cmd_main`. -/
theorem cmd_main_empty_token_propagates :
    cmd_main (fun _ _ => ExecOutcome.ok 0) builtin_cmd_names [([] : Str)]
      = .error () :=
  rfl

/-- C4 (amended): once variable extraction has succeeded, any exception
raised while parsing or executing the command is caught and turned into
exit code 3: one of the four user errors is reported as the single line
`ERROR: <message>` with no stack trace, and any other exception with a
full diagnostic trace.  (An exception raised during variable extraction
itself — possible only for an empty argv token — propagates instead.) -/
theorem cmd_main_error_mapping (ex : Str → List Str → ExecOutcome)
    (names : List Str) (argv : List Str) (vars : List (Str × Str))
    (kept : List Str)
    (hx : extract_vars argv = .ok (vars, kept))
    (hv : argv.head? ≠ some "--version".data)
    (hh : argv.head? ≠ some "--help".data) :
    (∀ k msg,
       ex (resolve_command names kept).1 (resolve_command names kept).2
           = .userError k msg →
       cmd_main ex names argv
         = .ok (3, dispatch_events vars (resolve_command names kept)
                   ++ [Event.errLine ("ERROR: ".data ++ msg)])) ∧
    (∀ msg,
       ex (resolve_command names kept).1 (resolve_command names kept).2
           = .exception msg →
       cmd_main ex names argv
         = .ok (3, dispatch_events vars (resolve_command names kept)
                   ++ [Event.errTrace])) := by
  have hbody : cmd_main ex names argv = cmd_main_dispatch ex names argv := by
    cases argv with
    | nil => rfl
    | cons a tl =>
      have h1 : a ≠ "--version".data := fun e => hv (by simp [e])
      have h2 : a ≠ "--help".data := fun e => hh (by simp [e])
      simp [cmd_main, h1, h2]
  constructor
  · intro k msg he
    rw [hbody]
    simp [cmd_main_dispatch, hx, he]
  · intro msg he
    rw [hbody]
    simp [cmd_main_dispatch, hx, he]

/-- Witness for C4 (amended): with a command executor raising
`InvalidTask`, the variable `x=1` is extracted, the unrecognized token
`mytask` falls to command `run`, and the outcome is exit code 3 with a
single `ERROR: boom` line and no trace. -/
theorem cmd_main_error_mapping_witness :
    cmd_main (fun _ _ => ExecOutcome.userError UserError.invalidTask
        "boom".data) builtin_cmd_names ["x=1".data, "mytask".data]
      = .ok (3, [Event.resetVars, Event.setVar "x".data "1".data,
                 Event.execCmd "run".data ["mytask".data],
                 Event.errLine "ERROR: boom".data]) :=
  (cmd_main_error_mapping
      (fun _ _ => ExecOutcome.userError UserError.invalidTask "boom".data)
      builtin_cmd_names ["x=1".data, "mytask".data]
      [("x".data, "1".data)] ["mytask".data] rfl (by decide) (by decide)).1
    UserError.invalidTask "boom".data rfl

/- ## Lemmas for option-value precedence (C1) -/

theorem lookup_init_params (specs : List CmdOption) (nm : Str) :
    lookupAssoc (init_params specs) nm
      = (find_spec specs nm).map fun s => (⟨s.default, false⟩ : ParamVal) := by
  induction specs with
  | nil => rfl
  | cons s rest ih =>
    by_cases h : s.name = nm
    · simp [init_params, lookupAssoc, find_spec, h]
    · simp [init_params, lookupAssoc, find_spec, h]
      simpa [init_params] using ih

theorem lookup_set_cli (p : Params) (n : Str) (v : Val) (nm : Str) :
    lookupAssoc (set_cli p n v) nm
      = (lookupAssoc p nm).map
          fun pv => if n = nm then (⟨v, true⟩ : ParamVal) else pv := by
  induction p with
  | nil => rfl
  | cons q rest ih =>
    obtain ⟨k, w⟩ := q
    by_cases h1 : k = nm
    · subst h1
      by_cases h2 : k = n
      · subst h2
        simp [set_cli, lookupAssoc]
      · have h3 : ¬(n = k) := fun e => h2 e.symm
        simp [set_cli, lookupAssoc, h2, h3]
    · by_cases h2 : k = n
      · subst h2
        simp [set_cli, lookupAssoc, h1]
        simpa [set_cli, h1] using ih
      · simp [set_cli, lookupAssoc, h1, h2]
        simpa [set_cli, h1] using ih

theorem lookup_apply_cli (cli : List (Str × Val)) (p : Params) (nm : Str) :
    lookupAssoc (apply_cli p cli) nm
      = (lookupAssoc p nm).map
          fun pv =>
            match lastAssoc cli nm with
            | some v => (⟨v, true⟩ : ParamVal)
            | none => pv := by
  induction cli generalizing p with
  | nil => cases h : lookupAssoc p nm <;> simp [apply_cli, lastAssoc, h]
  | cons q rest ih =>
    obtain ⟨n, v⟩ := q
    have hstep : apply_cli p ((n, v) :: rest) = apply_cli (set_cli p n v) rest :=
      rfl
    rw [hstep, ih, lookup_set_cli]
    cases hl : lastAssoc rest nm with
    | some w => cases lookupAssoc p nm <;> simp [lastAssoc, hl]
    | none =>
      by_cases hn : n = nm <;> cases lookupAssoc p nm <;>
        simp [lastAssoc, hl, hn]

theorem lookup_update_defaults (p : Params) (config : List (Str × Val))
    (nm : Str) :
    lookupAssoc (update_defaults p config) nm
      = (lookupAssoc p nm).map
          fun pv =>
            if pv.explicitSet then pv
            else
              match lookupAssoc config nm with
              | some v => (⟨v, pv.explicitSet⟩ : ParamVal)
              | none => pv := by
  induction p with
  | nil => rfl
  | cons q rest ih =>
    obtain ⟨k, w⟩ := q
    by_cases h : k = nm
    · subst h
      cases hw : w.explicitSet <;> cases hc : lookupAssoc config k <;>
        simp [update_defaults, lookupAssoc, hw, hc]
    · cases hw : w.explicitSet <;> cases hc : lookupAssoc config k <;>
        simp [update_defaults, lookupAssoc, hw, hc, h] <;>
        simpa [update_defaults] using ih

/-- C1: the value each option resolves to after `read_dodo` obeys the
precedence law — the last explicit CLI value when the option was
supplied on the CLI; otherwise the manifest config's declared default
when one exists; otherwise the hardcoded OptionSpec default — and the
presence bit records exactly whether the CLI supplied the option. -/
theorem read_dodo_precedence (specs : List CmdOption)
    (cli : List (Str × Val)) (dodo : DodoTasks) (args : List Str)
    (nm : Str) (sp : CmdOption)
    (hsp : find_spec specs nm = some sp) :
    lookupAssoc
        ((read_dodo dodo (apply_cli (init_params specs) cli) args).params)
        nm
      = some ⟨(match lastAssoc cli nm with
               | some v => v
               | none =>
                 match lookupAssoc dodo.config nm with
                 | some v => v
                 | none => sp.default),
              (lastAssoc cli nm).isSome⟩ := by
  have h1 : (read_dodo dodo (apply_cli (init_params specs) cli) args).params
      = update_defaults (apply_cli (init_params specs) cli) dodo.config :=
    rfl
  rw [h1, lookup_update_defaults, lookup_apply_cli, lookup_init_params, hsp]
  cases hl : lastAssoc cli nm <;> cases hc : lookupAssoc dodo.config nm <;>
    simp [hl, hc]

/-- Witness for C1: `dodoFile` is not supplied on the CLI, the manifest
config declares `other.py` for it, so the resolved value is the manifest
default (overriding the hardcoded `dodo.py`), with the presence bit
off. -/
theorem read_dodo_precedence_witness :
    lookupAssoc
        ((read_dodo ⟨[], [("dodoFile".data, Val.str "other.py".data)]⟩
            (apply_cli (init_params [opt_dodo, opt_continue])
              [("continue".data, Val.boolean true)])
            []).params)
        "dodoFile".data
      = some ⟨Val.str "other.py".data, false⟩ :=
  read_dodo_precedence [opt_dodo, opt_continue]
    [("continue".data, Val.boolean true)]
    ⟨[], [("dodoFile".data, Val.str "other.py".data)]⟩ [] "dodoFile".data
    opt_dodo rfl

/- ## Lemmas for the inverse-boolean law (C5) -/

theorem lastIdx_none_forall (P : Str → Bool) (xs : List Str)
    (h : lastIdx P xs = none) : ∀ t ∈ xs, P t = false := by
  induction xs with
  | nil => simp
  | cons a rest ih =>
    intro t ht
    unfold lastIdx at h
    cases hr : lastIdx P rest with
    | some k => rw [hr] at h; exact absurd h (by simp)
    | none =>
      rw [hr] at h
      by_cases hp : P a = true
      · rw [if_pos hp] at h; exact absurd h (by simp)
      · rcases List.mem_cons.mp ht with rfl | hm
        · simpa using hp
        · exact ih hr t hm

theorem lastIdx_tail_none (P : Str → Bool) (a : Str) (xs : List Str)
    (h : lastIdx P (a :: xs) = none) : lastIdx P xs = none := by
  cases hr : lastIdx P xs with
  | some k => unfold lastIdx at h; rw [hr] at h; exact absurd h (by simp)
  | none => rfl

theorem parse_bool_flags_no_flags (direct inv : List Str) :
    ∀ (xs : List Str) (acc : Bool),
      lastIdx (fun t => decide (t ∈ direct)) xs = none →
      lastIdx (fun t => decide (t ∈ inv)) xs = none →
      parse_bool_flags direct inv acc xs = acc := by
  intro xs
  induction xs with
  | nil => intro acc _ _; rfl
  | cons a rest ih =>
    intro acc hd hi
    have had : a ∉ direct := by
      have := lastIdx_none_forall _ _ hd a (by simp)
      simpa using this
    have hai : a ∉ inv := by
      have := lastIdx_none_forall _ _ hi a (by simp)
      simpa using this
    have hstep : parse_bool_flags direct inv acc (a :: rest)
        = parse_bool_flags direct inv
            (if a ∈ direct then true else if a ∈ inv then false else acc)
            rest := rfl
    rw [hstep, if_neg had, if_neg hai]
    exact ih acc (lastIdx_tail_none _ _ _ hd) (lastIdx_tail_none _ _ _ hi)

theorem parse_bool_flags_direct_only (direct inv : List Str) :
    ∀ (xs : List Str) (acc : Bool),
      (lastIdx (fun t => decide (t ∈ direct)) xs).isSome →
      lastIdx (fun t => decide (t ∈ inv)) xs = none →
      parse_bool_flags direct inv acc xs = true := by
  intro xs
  induction xs with
  | nil => intro acc hd _; simp [lastIdx] at hd
  | cons a rest ih =>
    intro acc hd hi
    have hai : a ∉ inv := by
      have := lastIdx_none_forall _ _ hi a (by simp)
      simpa using this
    have hir : lastIdx (fun t => decide (t ∈ inv)) rest = none :=
      lastIdx_tail_none _ _ _ hi
    have hstep : parse_bool_flags direct inv acc (a :: rest)
        = parse_bool_flags direct inv
            (if a ∈ direct then true else if a ∈ inv then false else acc)
            rest := rfl
    cases hr : lastIdx (fun t => decide (t ∈ direct)) rest with
    | some k =>
      rw [hstep]
      exact ih _ (by simp [hr]) hir
    | none =>
      have had : a ∈ direct := by
        by_cases h : a ∈ direct
        · exact h
        · unfold lastIdx at hd
          rw [hr] at hd
          simp [h] at hd
      rw [hstep, if_pos had]
      exact parse_bool_flags_no_flags direct inv rest true hr hir

theorem parse_bool_flags_inverse_only (direct inv : List Str) :
    ∀ (xs : List Str) (acc : Bool),
      lastIdx (fun t => decide (t ∈ direct)) xs = none →
      (lastIdx (fun t => decide (t ∈ inv)) xs).isSome →
      parse_bool_flags direct inv acc xs = false := by
  intro xs
  induction xs with
  | nil => intro acc _ hi; simp [lastIdx] at hi
  | cons a rest ih =>
    intro acc hd hi
    have had : a ∉ direct := by
      have := lastIdx_none_forall _ _ hd a (by simp)
      simpa using this
    have hdr : lastIdx (fun t => decide (t ∈ direct)) rest = none :=
      lastIdx_tail_none _ _ _ hd
    have hstep : parse_bool_flags direct inv acc (a :: rest)
        = parse_bool_flags direct inv
            (if a ∈ direct then true else if a ∈ inv then false else acc)
            rest := rfl
    cases hr : lastIdx (fun t => decide (t ∈ inv)) rest with
    | some k =>
      rw [hstep]
      exact ih _ hdr (by simp [hr])
    | none =>
      have hai : a ∈ inv := by
        by_cases h : a ∈ inv
        · exact h
        · unfold lastIdx at hi
          rw [hr] at hi
          simp [h] at hi
      rw [hstep, if_neg had, if_pos hai]
      exact parse_bool_flags_no_flags direct inv rest false hdr hr

theorem parse_bool_flags_last_wins (direct inv : List Str)
    (hdisj : ∀ t, t ∈ direct → t ∈ inv → False) :
    ∀ (xs : List Str) (acc : Bool) (i j : Nat),
      lastIdx (fun t => decide (t ∈ direct)) xs = some i →
      lastIdx (fun t => decide (t ∈ inv)) xs = some j →
      (parse_bool_flags direct inv acc xs = false ↔ i < j) := by
  intro xs
  induction xs with
  | nil => intro acc i j hd _; simp [lastIdx] at hd
  | cons a rest ih =>
    intro acc i j hd hi
    unfold lastIdx at hd hi
    have hstep : parse_bool_flags direct inv acc (a :: rest)
        = parse_bool_flags direct inv
            (if a ∈ direct then true else if a ∈ inv then false else acc)
            rest := rfl
    cases hdr : lastIdx (fun t => decide (t ∈ direct)) rest with
    | some iR =>
      rw [hdr] at hd
      obtain rfl : iR + 1 = i := by simpa using hd
      cases hir : lastIdx (fun t => decide (t ∈ inv)) rest with
      | some jR =>
        rw [hir] at hi
        obtain rfl : jR + 1 = j := by simpa using hi
        rw [hstep, ih _ iR jR hdr hir]
        omega
      | none =>
        rw [hir] at hi
        have hai : a ∈ inv := by
          by_cases h : a ∈ inv
          · exact h
          · simp [h] at hi
        obtain rfl : j = 0 := by simp [hai] at hi; omega
        have had : a ∉ direct := fun h => hdisj a h hai
        rw [hstep, if_neg had, if_pos hai]
        rw [parse_bool_flags_direct_only direct inv rest false
              (by simp [hdr]) hir]
        simp
    | none =>
      rw [hdr] at hd
      have had : a ∈ direct := by
        by_cases h : a ∈ direct
        · exact h
        · simp [h] at hd
      obtain rfl : i = 0 := by simp [had] at hd; omega
      cases hir : lastIdx (fun t => decide (t ∈ inv)) rest with
      | some jR =>
        rw [hir] at hi
        obtain rfl : jR + 1 = j := by simpa using hi
        rw [hstep, if_pos had]
        rw [parse_bool_flags_inverse_only direct inv rest true hdr
              (by simp [hir])]
        simp
      | none =>
        rw [hir] at hi
        have hai : a ∈ inv := by
          by_cases h : a ∈ inv
          · exact h
          · simp [h] at hi
        exact absurd hai (fun h => hdisj a had h)

/-- C5: for the `continue` option (direct flags `-c`/`--continue`,
inverse flag `--no-continue`, default false), when both a direct and the
inverse flag appear in argv the resolved value is false iff the last
occurrence of the inverse flag comes after the last occurrence of a
direct flag; and the presence of a direct flag alone resolves to
true. -/
theorem opt_continue_inverse_law (argv : List Str) :
    (∀ i j,
       lastIdx (fun t => decide (t ∈ direct_flag_tokens opt_continue)) argv
           = some i →
       lastIdx (fun t => decide (t ∈ inverse_flag_tokens opt_continue)) argv
           = some j →
       (parse_bool_flags (direct_flag_tokens opt_continue)
          (inverse_flag_tokens opt_continue) false argv = false ↔ i < j)) ∧
    (∀ i,
       lastIdx (fun t => decide (t ∈ direct_flag_tokens opt_continue)) argv
           = some i →
       lastIdx (fun t => decide (t ∈ inverse_flag_tokens opt_continue)) argv
           = none →
       parse_bool_flags (direct_flag_tokens opt_continue)
         (inverse_flag_tokens opt_continue) false argv = true) := by
  have hdisj : ∀ t ∈ direct_flag_tokens opt_continue,
      t ∉ inverse_flag_tokens opt_continue := by decide
  constructor
  · intro i j hd hi
    exact parse_bool_flags_last_wins _ _ (fun t h1 h2 => hdisj t h1 h2)
      argv false i j hd hi
  · intro i hd hi
    exact parse_bool_flags_direct_only _ _ argv false (by simp [hd]) hi

/-- Witness for C5: in `-c --no-continue` the inverse flag occurs last
(index 1 after index 0), so the option resolves to false. -/
theorem opt_continue_inverse_law_witness :
    parse_bool_flags (direct_flag_tokens opt_continue)
        (inverse_flag_tokens opt_continue) false
        ["-c".data, "--no-continue".data] = false :=
  ((opt_continue_inverse_law ["-c".data, "--no-continue".data]).1 0 1
      (by decide) (by decide)).mpr (by decide)

end Doit
